import Mathlib

/-!
Verification of the static-file serving subsystem (fasthttp-style `fs.go`,
`src/unnamed/part_000`): byte-range parsing, the in-memory cache manager
(put/get/decReadersCount and the background sweep), encoding negotiation,
path checks, the compressed-artifact staleness check, and the
`handleRequest` state machine, shallowly embedded in Lean.
-/

set_option maxRecDepth 4000

namespace FsSpec

/-! ## Byte-range parsing (`ParseByteRange`, part_000 lines 1201-1252) -/

/-- Modelled from the spec: `ParseUint` is called by `ParseByteRange` but its
body is not part of the sources at hand; per the spec it parses a
non-negative decimal integer from a byte slice, failing on empty or
non-digit input. -/
def parseUintAux : List Char → Nat → Option Nat
  | [], acc => some acc
  | c :: rest, acc =>
      if c.isDigit then parseUintAux rest (acc * 10 + (c.toNat - ('0').toNat))
      else none

/-- Modelled from the spec: decimal parse entry point (`ParseUint`). -/
def ParseUint (b : List Char) : Option Int :=
  match b with
  | [] => none
  | _ => (parseUintAux b 0).map Int.ofNat

/-- Decimal value of a digit string, used to state the byte-range claims. -/
def decimalVal (ds : List Char) : Nat :=
  ds.foldl (fun a c => a * 10 + (c.toNat - ('0').toNat)) 0

/-- `bytes.IndexByte`: first index of `t` in the list, `none` when absent. -/
def indexByte : List Char → Char → Option Nat
  | [], _ => none
  | c :: rest, t => if c = t then some 0 else (indexByte rest t).map (· + 1)

/-- The `strBytes` constant (`"bytes"`). -/
def strBytes : List Char := ['b', 'y', 't', 'e', 's']

/-- Body of `ParseByteRange` after the `"bytes="` prefix has been consumed
(part_000 lines 1213-1251): `b` is the byte slice after the `'='`. -/
def parseByteRangeAfterEq (b : List Char) (contentLength : Int) :
    Option (Int × Int) :=
  match indexByte b '-' with
  | none => none
  | some n =>
    if n = 0 then
      match ParseUint (b.drop 1) with
      | none => none
      | some v =>
        let startPos : Int := contentLength - v
        let startPos := if startPos < 0 then 0 else startPos
        some (startPos, contentLength - 1)
    else
      match ParseUint (b.take n) with
      | none => none
      | some startPos =>
        if startPos ≥ contentLength then none
        else
          match b.drop (n + 1) with
          | [] => some (startPos, contentLength - 1)
          | e :: es =>
            match ParseUint (e :: es) with
            | none => none
            | some endPos =>
              let endPos :=
                if endPos ≥ contentLength then contentLength - 1
                else endPos
              if endPos < startPos then none
              else some (startPos, endPos)

/-- `ParseByteRange(byteRange, contentLength)` from part_000 lines 1201-1252.
`none` models the error returns; `some (startPos, endPos)` the success
return. -/
def ParseByteRange (byteRange : List Char) (contentLength : Int) :
    Option (Int × Int) :=
  if strBytes.isPrefixOf byteRange then
    match byteRange.drop strBytes.length with
    | [] => none
    | c :: b =>
      if c = '=' then parseByteRangeAfterEq b contentLength
      else none
  else none

/-! ## Cache manager state machine
(`inMemoryCacheManager`, part_000 lines 861-927, and `fsFile.decReadersCount`,
lines 633-640). Files are identified by a numeric id standing for the Go
pointer; `readers` is each file's `readersCount` and `released` records
whether `Release` has closed its handle. All three operations run under the
single `cacheLock`, so a sequential interleaving models them exactly. -/

/-- The four cache partitions (`defaultCacheKind`, `brotliCacheKind`,
`gzipCacheKind`, `zstdCacheKind`). -/
inductive CacheKind
  | defaultKind
  | brotliKind
  | gzipKind
  | zstdKind
deriving DecidableEq, Repr

/-- State of the in-memory cache manager: one keyed partition per encoding
(`cache`, `cacheBrotli`, `cacheGzip`, `cacheZstd`, collapsed into one map
indexed by `CacheKind` as `getFsCache` does), plus each file's reader count
and released flag. -/
structure CMState where
  parts : CacheKind → List Char → Option Nat
  readers : Nat → Int
  released : Nat → Bool

/-- `ff.readersCount++` for file `fid`. -/
def incReaders (s : CMState) (fid : Nat) : CMState :=
  { s with readers := fun j => if j = fid then s.readers j + 1 else s.readers j }

/-- `ff.Release()` for file `fid`: the underlying handle is closed. -/
def releaseFile (s : CMState) (fid : Nat) : CMState :=
  { s with released := fun j => if j = fid then true else s.released j }

/-- `inMemoryCacheManager.GetFileFromCache` (lines 892-903): look up under
the lock; on a hit increment the entry's reader count before returning. -/
def GetFileFromCache (s : CMState) (kind : CacheKind) (path : List Char) :
    Option Nat × CMState :=
  match s.parts kind path with
  | some ff => (some ff, incReaders s ff)
  | none => (none, s)

/-- `inMemoryCacheManager.SetFileToCache` (lines 905-927): under the lock,
if no entry exists store the candidate and increment its reader count;
otherwise increment the existing entry's count, release the candidate and
return the existing entry. -/
def SetFileToCache (s : CMState) (kind : CacheKind) (path : List Char)
    (ff : Nat) : Nat × CMState :=
  match s.parts kind path with
  | none =>
      (ff, incReaders
        { s with
          parts := fun k p =>
            if k = kind ∧ p = path then some ff else s.parts k p } ff)
  | some ff1 => (ff1, releaseFile (incReaders s ff1) ff)

/-- `fsFile.decReadersCount` (lines 633-640): under the cache lock,
decrement and clamp at zero. -/
def decReadersCount (s : CMState) (fid : Nat) : CMState :=
  { s with
    readers := fun j =>
      if j = fid then
        if s.readers fid - 1 < 0 then 0 else s.readers fid - 1
      else s.readers j }

/-- One cache operation executed under the partition lock. -/
inductive CacheOp
  | get (kind : CacheKind) (path : List Char)
  | set (kind : CacheKind) (path : List Char) (ff : Nat)
  | dec (fid : Nat)

/-- Apply a single locked cache operation to the state. -/
def applyOp (s : CMState) : CacheOp → CMState
  | .get kind path => (GetFileFromCache s kind path).2
  | .set kind path ff => (SetFileToCache s kind path ff).2
  | .dec fid => decReadersCount s fid

/-- Apply a sequence of locked cache operations in order. -/
def applyOps (s : CMState) (ops : List CacheOp) : CMState :=
  ops.foldl applyOp s

/-! ## Background sweep (`cleanCache` lines 957-986, `cleanCacheNolock`
lines 988-1006). Entries are modelled as records of the fields the sweep
reads; the whole sweep holds `cacheLock`, so the counts are stable during
one pass. The third component of the result is `filesToRelease`: exactly
the entries whose handles `Release` closes at the end of the sweep. -/

/-- The fields of `fsFile` read by the sweep: identity, `readersCount`, and
creation time `t` (nanoseconds). -/
structure FFile where
  fid : Nat
  readersCount : Int
  t : Int
deriving DecidableEq, Repr

/-- The four keyed partitions swept by `cleanCache`, as association lists
(Go map iteration visits every entry exactly once). -/
structure SweepCaches where
  cache : List (String × FFile)
  cacheBrotli : List (String × FFile)
  cacheGzip : List (String × FFile)
  cacheZstd : List (String × FFile)
deriving DecidableEq, Repr

/-- `cleanCacheNolock` (lines 988-1006): scan one partition; entries older
than `cacheDuration` are deleted from the index and appended to
`pendingFiles` (readers outstanding) or `filesToRelease` (no readers).
Returns the surviving partition and the two accumulators. -/
def cleanCacheNolock (cache : List (String × FFile))
    (pendingFiles filesToRelease : List FFile) (now cacheDuration : Int) :
    List (String × FFile) × List FFile × List FFile :=
  match cache with
  | [] => ([], pendingFiles, filesToRelease)
  | (k, ff) :: rest =>
      if now - ff.t > cacheDuration then
        if ff.readersCount > 0 then
          cleanCacheNolock rest (pendingFiles ++ [ff]) filesToRelease
            now cacheDuration
        else
          cleanCacheNolock rest pendingFiles (filesToRelease ++ [ff])
            now cacheDuration
      else
        let res := cleanCacheNolock rest pendingFiles filesToRelease
          now cacheDuration
        ((k, ff) :: res.1, res.2.1, res.2.2)

/-- Phase one of `cleanCache` (lines 962-972): re-examine the entries
deferred by the previous sweep; keep those still holding readers, release
the rest. Returns `(remainingFiles, filesToRelease)`. -/
def sweepPendingPhase : List FFile → List FFile × List FFile →
    List FFile × List FFile
  | [], acc => acc
  | ff :: rest, (remaining, toRelease) =>
      if ff.readersCount > 0 then
        sweepPendingPhase rest (remaining ++ [ff], toRelease)
      else
        sweepPendingPhase rest (remaining, toRelease ++ [ff])

/-- `inMemoryCacheManager.cleanCache` (lines 957-986): phase one over the
pending list, then `cleanCacheNolock` over the four partitions; afterwards
`Release` is called on every file in the returned `filesToRelease`. -/
def cleanCache (st : SweepCaches) (pendingFiles : List FFile)
    (now cacheDuration : Int) :
    SweepCaches × List FFile × List FFile :=
  let ph := sweepPendingPhase pendingFiles ([], [])
  let r1 := cleanCacheNolock st.cache ph.1 ph.2 now cacheDuration
  let r2 := cleanCacheNolock st.cacheBrotli r1.2.1 r1.2.2 now cacheDuration
  let r3 := cleanCacheNolock st.cacheGzip r2.2.1 r2.2.2 now cacheDuration
  let r4 := cleanCacheNolock st.cacheZstd r3.2.1 r3.2.2 now cacheDuration
  (⟨r1.1, r2.1, r3.1, r4.1⟩, r4.2.1, r4.2.2)

/-! ## Encoding selection (`handleRequest`, part_000 lines 1053-1072) -/

/-- The per-handler compression configuration (`fsHandler.compress`,
`compressBrotli`, `compressZstd`; gzip has no flag of its own and is the
fallback whenever `compress` is set). -/
structure EncodingConfig where
  compress : Bool
  compressBrotli : Bool
  compressZstd : Bool
deriving DecidableEq, Repr

/-- Which encodings the request's `Accept-Encoding` header admits
(`HasAcceptEncodingBytes` for `br`, `zstd`, `gzip`). -/
structure AcceptedEncodings where
  br : Bool
  zstd : Bool
  gzip : Bool
deriving DecidableEq, Repr

/-- Result of the encoding switch: `mustCompress`, the cache partition and
the encoding name. -/
structure EncodingChoice where
  mustCompress : Bool
  fileCacheKind : CacheKind
  fileEncoding : String
deriving DecidableEq, Repr

/-- The encoding switch of `handleRequest` (lines 1053-1072): considered
only when the `Range` header is absent and `compress` is set; brotli, then
zstd, then gzip. -/
def negotiateEncoding (cfg : EncodingConfig) (acc : AcceptedEncodings)
    (byteRange : List Char) : EncodingChoice :=
  if byteRange.length = 0 ∧ cfg.compress then
    if cfg.compressBrotli ∧ acc.br then ⟨true, .brotliKind, "br"⟩
    else if cfg.compressZstd ∧ acc.zstd then ⟨true, .zstdKind, "zstd"⟩
    else if acc.gzip then ⟨true, .gzipKind, "gzip"⟩
    else ⟨false, .defaultKind, ""⟩
  else ⟨false, .defaultKind, ""⟩

/-! ## Path checks (`handleRequest`, part_000 lines 1028-1051) -/

/-- The NUL byte. -/
def nulByte : Char := Char.ofNat 0

/-- The `strSlashDotDotSlash` constant (`"/../"`). -/
def strSlashDotDotSlash : List Char := ['/', '.', '.', '/']

/-- `bytes.Index(l, pat) >= 0`: `pat` occurs as a contiguous sub-slice. -/
def hasSubSlice (l pat : List Char) : Bool :=
  match l with
  | [] => pat.isEmpty
  | _ :: rest => pat.isPrefixOf l || hasSubSlice rest pat

/-- The two rejection checks at the top of `handleRequest` (lines
1037-1051): a path containing a NUL byte is rejected with 400; when a path
rewriter is configured, a path containing `"/../"` is rejected with 500.
`none` means the request proceeds. -/
def pathChecks (path : List Char) (hasPathRewrite : Bool) : Option Nat :=
  if path.contains nulByte then some 400
  else if hasPathRewrite ∧ hasSubSlice path strSlashDotDotSlash then some 500
  else none

/-! ## The request state machine (`handleRequest`, part_000 lines
1028-1192). Filesystem and concurrency outcomes that the function branches
on (cache hit contents, `openFSFile` results, reader/seek/close failures)
are supplied by an oracle; the function records every cache, filesystem and
reader-count interaction as an event, so the theorems can speak about what
the handler did and in which order. -/

/-- The fields of a `fsFile` read on the request path. -/
structure FsFileInfo where
  fid : Nat
  contentLength : Int
  lastModified : Int
  compressed : Bool
  contentType : String
deriving DecidableEq, Repr

/-- Failures of `fsHandler.openFSFile` distinguished by `handleRequest`. -/
inductive OpenError
  | dirIndexRequired
  | noCreatePermission
  | otherError
deriving DecidableEq, Repr

/-- Oracle for the request path: what the cache lookup returns, what
`openFSFile` returns (as a function of `mustCompress`, for the permission
retry), what `openIndexFile` returns, whether `SetFileToCache` lost a race
to a concurrent writer, and whether reader construction, the range seek and
the reader close succeed. -/
structure Oracle where
  cached : Option FsFileInfo
  openFS : Bool → Except OpenError FsFileInfo
  openIndex : Except Unit FsFileInfo
  raceExisting : Option FsFileInfo
  readerOk : Bool
  seekOk : Bool
  closeOk : Bool

/-- Events recorded while serving one request. A reader close always runs
`decReadersCount` (part_000 lines 700, 759), recorded as a separate
`decReaders` event right after `closeReader`. -/
inductive Ev
  | cacheGet (kind : CacheKind) (hit : Bool)
  | fsOpen (mustCompress : Bool)
  | fsOpenIndex
  | cacheSet (kind : CacheKind)
  | incReaders (fid : Nat)
  | decReaders (fid : Nat)
  | newReader (fid : Nat)
  | closeReader (fid : Nat)
deriving DecidableEq, Repr

/-- Observable outcome of one request: status code, the event trace, the
body stream handed to the sink (reader id and length), and the headers the
handler set. -/
structure Outcome where
  status : Nat
  events : List Ev
  bodyStream : Option (Nat × Int)
  bodyReset : Bool
  skipBody : Bool
  contentLengthHdr : Option Int
  contentRange : Option (Int × Int × Int)
  contentEncoding : Option String
  varyAcceptEncoding : Bool
  acceptRangesHdr : Bool
  lastModifiedHdr : Option Int
  contentTypeHdr : Option String
deriving DecidableEq, Repr

/-- An early-return outcome produced by `ctx.Error`/`ctx.Redirect`/
`ctx.NotModified` before any response headers of the emit stage are set. -/
def errorOutcome (status : Nat) (events : List Ev) : Outcome :=
  { status := status
    events := events
    bodyStream := none
    bodyReset := false
    skipBody := false
    contentLengthHdr := none
    contentRange := none
    contentEncoding := none
    varyAcceptEncoding := false
    acceptRangesHdr := false
    lastModifiedHdr := none
    contentTypeHdr := none }

/-- Modelled from the spec: `RequestCtx.IfModifiedSince` is called at line
1118 but its body is not among the sources at hand. Per the spec ("if the
request's If-Modified-Since is not older than the entry's last-modified
time, respond 304"), the entry counts as modified exactly when the header
is absent or strictly older than the entry's last-modified time. -/
def ifModifiedSince (hdr : Option Int) (lastModified : Int) : Bool :=
  match hdr with
  | none => true
  | some t => t < lastModified

/-- One request, minus the method (`IsHead` is passed separately). -/
structure Request where
  ctxPath : List Char
  rewritten : Option (List Char)
  byteRange : List Char
  accept : AcceptedEncodings
  ifModifiedSinceHdr : Option Int

/-- Handler configuration consulted on the request path. -/
structure HandlerConfig where
  enc : EncodingConfig
  acceptByteRange : Bool
deriving DecidableEq, Repr

/-- Everything flowing into the emit stage (lines 1172-1192). -/
structure EmitInput where
  events : List Ev
  statusCode : Nat
  contentLength : Int
  contentRange : Option (Int × Int × Int)
  contentEncoding : Option String
  varyAE : Bool
  acceptRangesHdr : Bool
  lastModifiedVal : Int
  contentTypeVal : String
  readerFid : Nat
  closeOk : Bool

/-- The emit stage (lines 1172-1192): `Last-Modified` is set for both
methods; a non-HEAD request hands the reader and the computed length to the
sink; a HEAD request resets the body, skips it, sets `Content-Length` to
that same computed length and closes the reader immediately (a close
failure yields 500 after the close). -/
def emitStage (isHead : Bool) (e : EmitInput) : Outcome :=
  if isHead then
    let evs := e.events ++ [.closeReader e.readerFid, .decReaders e.readerFid]
    if e.closeOk then
      { status := e.statusCode
        events := evs
        bodyStream := none
        bodyReset := true
        skipBody := true
        contentLengthHdr := some e.contentLength
        contentRange := e.contentRange
        contentEncoding := e.contentEncoding
        varyAcceptEncoding := e.varyAE
        acceptRangesHdr := e.acceptRangesHdr
        lastModifiedHdr := some e.lastModifiedVal
        contentTypeHdr := some e.contentTypeVal }
    else
      { status := 500
        events := evs
        bodyStream := none
        bodyReset := true
        skipBody := true
        contentLengthHdr := some e.contentLength
        contentRange := e.contentRange
        contentEncoding := e.contentEncoding
        varyAcceptEncoding := e.varyAE
        acceptRangesHdr := e.acceptRangesHdr
        lastModifiedHdr := some e.lastModifiedVal
        contentTypeHdr := none }
  else
    { status := e.statusCode
      events := e.events
      bodyStream := some (e.readerFid, e.contentLength)
      bodyReset := false
      skipBody := false
      contentLengthHdr := none
      contentRange := e.contentRange
      contentEncoding := e.contentEncoding
      varyAcceptEncoding := e.varyAE
      acceptRangesHdr := e.acceptRangesHdr
      lastModifiedHdr := some e.lastModifiedVal
      contentTypeHdr := some e.contentTypeVal }

/-- `SetFileToCache` on the request path (line 1115): the freshly opened
entry is stored, unless a concurrent writer won the race, in which case the
existing entry is counted and returned. -/
def setStage (choice : EncodingChoice) (o : Oracle) (ff : FsFileInfo)
    (evs : List Ev) : FsFileInfo × List Ev :=
  match o.raceExisting with
  | none => (ff, evs ++ [.cacheSet choice.fileCacheKind, .incReaders ff.fid])
  | some ff1 =>
      (ff1, evs ++ [.cacheSet choice.fileCacheKind, .incReaders ff1.fid])

/-- Handling of the `openFSFile` result (lines 1093-1115): directory
redirect or index file, not-found, or cache insertion. -/
def openStage (choice : EncodingChoice) (o : Oracle)
    (hasTrailingSlash : Bool) (res : Except OpenError FsFileInfo)
    (evs : List Ev) : Except Outcome (FsFileInfo × List Ev) :=
  match res with
  | .error .dirIndexRequired =>
      if ¬ hasTrailingSlash then .error (errorOutcome 302 evs)
      else
        match o.openIndex with
        | .error _ => .error (errorOutcome 403 (evs ++ [.fsOpenIndex]))
        | .ok ff => .ok (setStage choice o ff (evs ++ [.fsOpenIndex]))
  | .error _ => .error (errorOutcome 404 evs)
  | .ok ff => .ok (setStage choice o ff evs)

/-- Cache lookup and, on a miss, open/compress/index plus `SetFileToCache`
(lines 1080-1116). Returns the counted entry the request will serve, or the
early-return outcome. The `noCreatePermission` retry (lines 1086-1091)
re-opens without compression before the shared error handling. -/
def cacheLookupStage (choice : EncodingChoice) (o : Oracle)
    (hasTrailingSlash : Bool) : Except Outcome (FsFileInfo × List Ev) :=
  match o.cached with
  | some ff =>
      .ok (ff, [.cacheGet choice.fileCacheKind true, .incReaders ff.fid])
  | none =>
    let ev0 : List Ev := [.cacheGet choice.fileCacheKind false]
    match o.openFS choice.mustCompress with
    | .error .noCreatePermission =>
        if choice.mustCompress then
          openStage choice o hasTrailingSlash (o.openFS false)
            (ev0 ++ [.fsOpen choice.mustCompress, .fsOpen false])
        else
          openStage choice o hasTrailingSlash (.error .noCreatePermission)
            (ev0 ++ [.fsOpen choice.mustCompress])
    | r => openStage choice o hasTrailingSlash r
        (ev0 ++ [.fsOpen choice.mustCompress])

/-- The `EmitInput` assembled on the serving path. -/
def mkServeEmitInput (evs : List Ev) (contentEncoding : Option String)
    (varyAE : Bool) (ff : FsFileInfo) (o : Oracle) (statusCode : Nat)
    (contentLength : Int) (contentRange : Option (Int × Int × Int))
    (acceptRanges : Bool) : EmitInput :=
  { events := evs
    statusCode := statusCode
    contentLength := contentLength
    contentRange := contentRange
    contentEncoding := contentEncoding
    varyAE := varyAE
    acceptRangesHdr := acceptRanges
    lastModifiedVal := ff.lastModified
    contentTypeVal := ff.contentType
    readerFid := ff.fid
    closeOk := o.closeOk }

/-- Conditional check, reader construction, encoding headers, range check
and emit (lines 1118-1192). -/
def serveEntry (cfg : HandlerConfig) (req : Request) (o : Oracle)
    (isHead : Bool) (choice : EncodingChoice) (ff : FsFileInfo)
    (evs : List Ev) : Outcome :=
  if ¬ ifModifiedSince req.ifModifiedSinceHdr ff.lastModified then
    errorOutcome 304 (evs ++ [.decReaders ff.fid])
  else if ¬ o.readerOk then
    errorOutcome 500 evs
  else
    let evs := evs ++ [.newReader ff.fid]
    let contentEncoding : Option String :=
      if ff.compressed then
        if choice.fileEncoding = "br" then some "br"
        else if choice.fileEncoding = "gzip" then some "gzip"
        else if choice.fileEncoding = "zstd" then some "zstd"
        else none
      else none
    let varyAE := contentEncoding.isSome
    let mkEmit := fun (statusCode : Nat) (contentLength : Int)
        (contentRange : Option (Int × Int × Int)) (acceptRanges : Bool) =>
      emitStage isHead
        (mkServeEmitInput evs contentEncoding varyAE ff o statusCode
          contentLength contentRange acceptRanges)
    if cfg.acceptByteRange then
      if req.byteRange ≠ [] then
        match ParseByteRange req.byteRange ff.contentLength with
        | none =>
            { errorOutcome 416
                (evs ++ [.closeReader ff.fid, .decReaders ff.fid]) with
              contentEncoding := contentEncoding
              varyAcceptEncoding := varyAE
              acceptRangesHdr := true }
        | some (startPos, endPos) =>
            if ¬ o.seekOk then
              { errorOutcome 500
                  (evs ++ [.closeReader ff.fid, .decReaders ff.fid]) with
                contentEncoding := contentEncoding
                varyAcceptEncoding := varyAE
                acceptRangesHdr := true }
            else
              mkEmit 206 (endPos - startPos + 1)
                (some (startPos, endPos, ff.contentLength)) true
      else mkEmit 200 ff.contentLength none true
    else mkEmit 200 ff.contentLength none false

/-- `fsHandler.handleRequest` (lines 1028-1192): rewrite, path checks,
encoding selection, cache lookup / open, then `serveEntry`. -/
def handleRequest (cfg : HandlerConfig) (req : Request) (o : Oracle)
    (isHead : Bool) : Outcome :=
  let path := req.rewritten.getD req.ctxPath
  let hasTrailingSlash := decide (path.getLast? = some '/')
  match pathChecks path req.rewritten.isSome with
  | some st => errorOutcome st []
  | none =>
    let choice := negotiateEncoding cfg.enc req.accept req.byteRange
    match cacheLookupStage choice o hasTrailingSlash with
    | .error out => out
    | .ok (ff, evs) => serveEntry cfg req o isHead choice ff evs

/-! ## Compressed-artifact staleness (`fsHandler.openFSFile`, part_000
lines 1588-1641). Filesystem interactions are oracle inputs; time stamps
are nanoseconds. -/

/-- Errors of `filesystem.Open` distinguished by `openFSFile`. -/
inductive FsOpenErr
  | notExist
  | invalid
  | other
deriving DecidableEq, Repr

/-- Oracle for `openFSFile`: the open of `filePath` (with the compressed
suffix when `mustCompress`), `f.Stat()` as `(isDir, modTimeNs, size)`, and
`fs.Stat` of the original file as its modification time. -/
structure OpenOracle where
  openFile : Except FsOpenErr Unit
  statFile : Except Unit (Bool × Int × Int)
  statOriginal : Except Unit Int

/-- How `openFSFile` concluded. -/
inductive OpenFSResult
  | servedFile (compressed : Bool)
  | compressAndOpen
  | dirIndexRequired
  | errorResult
deriving DecidableEq, Repr

/-- Conclusion of `openFSFile` plus whether it deleted the on-disk
compressed artifact and whether it closed the handle it had opened. -/
structure OpenFSOutcome where
  res : OpenFSResult
  removedCompressed : Bool
  closedHandle : Bool
deriving DecidableEq, Repr

/-- One second in nanoseconds (`time.Second`). -/
def nsPerSecond : Int := 1000000000

/-- `fsHandler.openFSFile` (lines 1588-1641). When `mustCompress`, a
missing compressed file delegates to `compressAndOpenFSFile`; an existing
one is compared against the original's modification time: if the original
is newer by at least one second the artifact is closed, deleted and
recompressed, otherwise it is served as is. `filePathEmpty` models the
`filePath == ""` directory corner case. -/
def openFSFile (mustCompress : Bool) (filePathEmpty : Bool)
    (o : OpenOracle) : OpenFSOutcome :=
  match o.openFile with
  | .error e =>
      if mustCompress ∧ e = .notExist then
        ⟨.compressAndOpen, false, false⟩
      else if filePathEmpty ∧ (e = .notExist ∨ e = .invalid) then
        ⟨.dirIndexRequired, false, false⟩
      else ⟨.errorResult, false, false⟩
  | .ok _ =>
      match o.statFile with
      | .error _ => ⟨.errorResult, false, true⟩
      | .ok (isDir, modTime, _) =>
          if isDir then
            if mustCompress then ⟨.errorResult, false, true⟩
            else ⟨.dirIndexRequired, false, true⟩
          else if mustCompress then
            match o.statOriginal with
            | .error _ => ⟨.errorResult, false, true⟩
            | .ok origModTime =>
                if origModTime - modTime ≥ nsPerSecond then
                  ⟨.compressAndOpen, true, true⟩
                else ⟨.servedFile mustCompress, false, false⟩
          else ⟨.servedFile mustCompress, false, false⟩

/-! ## Leading-slash stripping (`stripLeadingSlashes` lines 1734-1749 and
`NewPathSlashesStripper` lines 225-229). The Go function panics when the
path does not start with a slash; `none` models that panic. -/

/-- `stripLeadingSlashes(path, stripSlashes)`: remove up to `stripSlashes`
leading slash-delimited segments; `none` is the
`panic("BUG: path must start with slash")`. -/
def stripLeadingSlashes : List Char → Nat → Option (List Char)
  | path, 0 => some path
  | [], _ + 1 => some []
  | c :: rest, k + 1 =>
      if c ≠ '/' then none
      else
        match indexByte rest '/' with
        | none => some []
        | some n => stripLeadingSlashes (rest.drop n) k

/-- `NewPathSlashesStripper(slashesCount)`: the rewriter applies
`stripLeadingSlashes` to the request path. -/
def NewPathSlashesStripper (slashesCount : Nat) :
    List Char → Option (List Char) :=
  fun path => stripLeadingSlashes path slashesCount

/-- Reference description of normal operation: drop up to `k` leading
slash-delimited segments, yielding the empty path when no further slash
exists. -/
def dropSegments : List Char → Nat → List Char
  | path, 0 => path
  | [], _ + 1 => []
  | _ :: rest, k + 1 =>
      match indexByte rest '/' with
      | none => []
      | some n => dropSegments (rest.drop n) k

/-! ### Facts about the byte-range parser -/

theorem parseUintAux_digits (ds : List Char) (acc : Nat)
    (h : ∀ c ∈ ds, c.isDigit) :
    parseUintAux ds acc =
      some (ds.foldl (fun a c => a * 10 + (c.toNat - ('0').toNat)) acc) := by
  induction ds generalizing acc with
  | nil => rfl
  | cons c rest ih =>
      simp only [parseUintAux, List.foldl]
      rw [if_pos (h c (by simp))]
      exact ih _ (fun x hx => h x (by simp [hx]))

theorem ParseUint_digits (ds : List Char) (h0 : ds ≠ [])
    (h : ∀ c ∈ ds, c.isDigit) :
    ParseUint ds = some ((decimalVal ds : Nat) : Int) := by
  cases ds with
  | nil => exact absurd rfl h0
  | cons c rest =>
      show (parseUintAux (c :: rest) 0).map Int.ofNat = _
      rw [parseUintAux_digits _ _ h]
      rfl

theorem digit_ne_dash {c : Char} (h : c.isDigit) : c ≠ '-' := by
  intro he
  subst he
  exact absurd h (by decide)

theorem indexByte_append_of_not_mem (ds : List Char) (t : Char)
    (rest : List Char) (h : ∀ c ∈ ds, c ≠ t) :
    indexByte (ds ++ t :: rest) t = some ds.length := by
  induction ds with
  | nil => simp [indexByte]
  | cons c cs ih =>
      simp only [List.cons_append, indexByte, List.append_eq]
      rw [if_neg (h c (by simp))]
      rw [ih (fun x hx => h x (by simp [hx]))]
      rfl

theorem ParseByteRange_eq_afterEq (rest : List Char) (L : Int) :
    ParseByteRange (strBytes ++ '=' :: rest) L =
      parseByteRangeAfterEq rest L := rfl

/-- The suffix form `bytes=-N` returns the last `N` bytes, with the start
clamped to `0` when `N` exceeds the content length. -/
theorem parseByteRange_suffixForm (L : Int) (ds : List Char) (h0 : ds ≠ [])
    (hd : ∀ c ∈ ds, c.isDigit) :
    ParseByteRange (("bytes=-").toList ++ ds) L =
      some (max (L - (decimalVal ds : Int)) 0, L - 1) := by
  have e1 : ("bytes=-").toList ++ ds = strBytes ++ '=' :: ('-' :: ds) := by
    simp [strBytes]
  have e2 : parseByteRangeAfterEq ('-' :: ds) L =
      (match ParseUint ds with
       | none => none
       | some v => some (if L - v < 0 then 0 else L - v, L - 1)) := rfl
  rw [e1, ParseByteRange_eq_afterEq, e2, ParseUint_digits ds h0 hd]
  show some (ite _ _ _, _) = _
  congr 1
  congr 1
  split_ifs with h
  · exact (max_eq_right h.le).symm
  · exact (max_eq_left (not_lt.mp h)).symm

/-- The open-ended form `bytes=N-` extends to `L - 1`, failing when the
start is at or beyond the content length. -/
theorem parseByteRange_openEndedForm (L : Int) (ds : List Char)
    (h0 : ds ≠ []) (hd : ∀ c ∈ ds, c.isDigit) :
    ParseByteRange (("bytes=").toList ++ ds ++ [('-' : Char)]) L =
      (if (decimalVal ds : Int) < L then some ((decimalVal ds : Int), L - 1)
       else none) := by
  have e1 : ("bytes=").toList ++ ds ++ [('-' : Char)] =
      strBytes ++ '=' :: (ds ++ ['-']) := by
    simp [strBytes]
  rw [e1, ParseByteRange_eq_afterEq]
  simp only [parseByteRangeAfterEq,
    indexByte_append_of_not_mem ds '-' [] (fun c hc => digit_ne_dash (hd c hc))]
  rw [if_neg (by simpa using h0 : ¬ ds.length = 0)]
  rw [List.take_left ds ['-'], ParseUint_digits ds h0 hd]
  rw [show ds.length + 1 = (ds ++ ['-']).length from by simp, List.drop_length]
  show (if ((decimalVal ds : Int)) ≥ L then none
        else some ((decimalVal ds : Int), L - 1)) = _
  by_cases h : (decimalVal ds : Int) ≥ L
  · rw [if_pos h, if_neg (not_lt.mpr h)]
  · rw [if_neg h, if_pos (lt_of_not_ge h)]

/-- The two-sided form `bytes=N-M`: the start must be below the content
length, the end is clamped down to `L - 1`, and after clamping the end may
not lie below the start. -/
theorem parseByteRange_fullForm (L : Int) (ds es : List Char) (h0 : ds ≠ [])
    (hd : ∀ c ∈ ds, c.isDigit) (h0e : es ≠ []) (hde : ∀ c ∈ es, c.isDigit) :
    ParseByteRange (("bytes=").toList ++ ds ++ [('-' : Char)] ++ es) L =
      (if (decimalVal ds : Int) ≥ L then none
       else if min (decimalVal es : Int) (L - 1) < (decimalVal ds : Int)
       then none
       else some ((decimalVal ds : Int), min (decimalVal es : Int) (L - 1))) := by
  have e1 : ("bytes=").toList ++ ds ++ [('-' : Char)] ++ es =
      strBytes ++ '=' :: (ds ++ '-' :: es) := by
    simp [strBytes]
  rw [e1, ParseByteRange_eq_afterEq]
  simp only [parseByteRangeAfterEq,
    indexByte_append_of_not_mem ds '-' es (fun c hc => digit_ne_dash (hd c hc))]
  rw [if_neg (by simpa using h0 : ¬ ds.length = 0)]
  rw [List.take_left ds ('-' :: es), ParseUint_digits ds h0 hd]
  rw [show ds ++ '-' :: es = (ds ++ ['-']) ++ es from by simp]
  rw [List.drop_left' (by simp : (ds ++ ['-']).length = ds.length + 1)]
  cases es with
  | nil => exact absurd rfl h0e
  | cons e es' =>
      show (if ((decimalVal ds : Int)) ≥ L then none
            else
              match ParseUint (e :: es') with
              | none => none
              | some endPos =>
                if (if endPos ≥ L then L - 1 else endPos) <
                    ((decimalVal ds : Int))
                then none
                else some (((decimalVal ds : Int)),
                  if endPos ≥ L then L - 1 else endPos)) = _
      rw [ParseUint_digits (e :: es') (by simp) hde]
      show (if ((decimalVal ds : Int)) ≥ L then none
            else
              if (if ((decimalVal (e :: es') : Int)) ≥ L then L - 1
                  else ((decimalVal (e :: es') : Int))) <
                  (decimalVal ds : Int)
              then none
              else some ((decimalVal ds : Int),
                if ((decimalVal (e :: es') : Int)) ≥ L then L - 1
                else ((decimalVal (e :: es') : Int)))) = _
      have emin : (if ((decimalVal (e :: es') : Int)) ≥ L then L - 1
          else ((decimalVal (e :: es') : Int))) =
          min ((decimalVal (e :: es') : Int)) (L - 1) := by
        split_ifs with hge
        · exact (min_eq_right (by omega)).symm
        · exact (min_eq_left (by omega)).symm
      rw [emin]



/-- Claim C1: `ParseByteRange` follows RFC 2616 §14.35 — the suffix form
`bytes=-N` yields the last `N` bytes with the start clamped to 0, the
open-ended form `bytes=N-` extends to `L-1` and fails when the start is at
or beyond `L`, the two-sided form clamps the end down to `L-1` and fails
when the clamped end lies below the start, and the five concrete examples
behave as stated. -/
theorem C1_parse_byte_range :
    (∀ (L : Int) (ds : List Char), ds ≠ [] → (∀ c ∈ ds, c.isDigit) →
        ParseByteRange (("bytes=-").toList ++ ds) L =
          some (max (L - (decimalVal ds : Int)) 0, L - 1)) ∧
    (∀ (L : Int) (ds : List Char), ds ≠ [] → (∀ c ∈ ds, c.isDigit) →
        ParseByteRange (("bytes=").toList ++ ds ++ [('-' : Char)]) L =
          (if (decimalVal ds : Int) < L then
            some ((decimalVal ds : Int), L - 1)
          else none)) ∧
    (∀ (L : Int) (ds es : List Char), ds ≠ [] → (∀ c ∈ ds, c.isDigit) →
        es ≠ [] → (∀ c ∈ es, c.isDigit) →
        ParseByteRange (("bytes=").toList ++ ds ++ [('-' : Char)] ++ es) L =
          (if (decimalVal ds : Int) ≥ L then none
          else if min (decimalVal es : Int) (L - 1) < (decimalVal ds : Int)
          then none
          else some ((decimalVal ds : Int),
            min (decimalVal es : Int) (L - 1)))) ∧
    ParseByteRange (("bytes=0-499").toList) 1000 = some (0, 499) ∧
    ParseByteRange (("bytes=500-").toList) 1000 = some (500, 999) ∧
    ParseByteRange (("bytes=-100").toList) 1000 = some (900, 999) ∧
    ParseByteRange (("bytes=1000-1001").toList) 1000 = none ∧
    ParseByteRange (("bytes=500-100").toList) 1000 = none :=
  ⟨parseByteRange_suffixForm, parseByteRange_openEndedForm,
   parseByteRange_fullForm, by decide, by decide, by decide, by decide,
   by decide⟩

/-- Witness for C1 at concrete inputs. -/
theorem C1_parse_byte_range_witness :
    ParseByteRange (("bytes=-").toList ++ ['1', '0', '0']) 1000 =
      some (max (1000 - (decimalVal ['1', '0', '0'] : Int)) 0, 1000 - 1) :=
  C1_parse_byte_range.1 1000 ['1', '0', '0'] (by decide) (by decide)



/-! ### Facts about the cache manager state machine -/

theorem setFileToCache_preserves_entry (s : CMState) (kind : CacheKind)
    (path : List Char) (fid : Nat) (h : s.parts kind path = some fid)
    (kind' : CacheKind) (path' : List Char) (cand : Nat) :
    ((SetFileToCache s kind' path' cand).2).parts kind path = some fid := by
  cases hp : s.parts kind' path' with
  | none =>
      simp only [SetFileToCache, hp, incReaders]
      by_cases he : kind = kind' ∧ path = path'
      · rw [← he.1, ← he.2] at hp
        rw [hp] at h
        exact absurd h (by simp)
      · rw [if_neg he]
        exact h
  | some ff1 =>
      simpa [SetFileToCache, hp, releaseFile, incReaders] using h

theorem applyOps_set_preserves_entry (s : CMState) (kind : CacheKind)
    (path : List Char) (fid : Nat)
    (ops : List (CacheKind × List Char × Nat))
    (h : s.parts kind path = some fid) :
    (applyOps s (ops.map fun t => CacheOp.set t.1 t.2.1 t.2.2)).parts
      kind path = some fid := by
  induction ops generalizing s with
  | nil => exact h
  | cons op rest ih =>
      exact ih _ (setFileToCache_preserves_entry s kind path fid h _ _ _)

/-- Claim C2: `SetFileToCache` stores the candidate with reader count one
when no entry exists; when an entry exists it releases the candidate,
increments the existing entry's count and returns the existing entry; so
entries are unique per (encoding, key), the first writer wins, and no later
put ever replaces a stored winner. -/
theorem C2_set_file_to_cache :
    (∀ (s : CMState) (kind : CacheKind) (path : List Char) (cand : Nat),
        s.parts kind path = none → s.readers cand = 0 →
        (SetFileToCache s kind path cand).1 = cand ∧
        ((SetFileToCache s kind path cand).2).parts kind path = some cand ∧
        ((SetFileToCache s kind path cand).2).readers cand = 1 ∧
        ((SetFileToCache s kind path cand).2).released cand =
          s.released cand) ∧
    (∀ (s : CMState) (kind : CacheKind) (path : List Char) (cand fid : Nat),
        s.parts kind path = some fid →
        (SetFileToCache s kind path cand).1 = fid ∧
        (∀ k p, ((SetFileToCache s kind path cand).2).parts k p =
          s.parts k p) ∧
        ((SetFileToCache s kind path cand).2).readers fid =
          s.readers fid + 1 ∧
        ((SetFileToCache s kind path cand).2).released cand = true) ∧
    (∀ (s : CMState) (kind : CacheKind) (path : List Char) (fid : Nat)
        (ops : List (CacheKind × List Char × Nat)),
        s.parts kind path = some fid →
        (applyOps s (ops.map fun t => CacheOp.set t.1 t.2.1 t.2.2)).parts
          kind path = some fid) := by
  refine ⟨?_, ?_, ?_⟩
  · intro s kind path cand hnone hzero
    refine ⟨?_, ?_, ?_, ?_⟩
    · simp [SetFileToCache, hnone]
    · simp [SetFileToCache, hnone, incReaders]
    · simp [SetFileToCache, hnone, incReaders, hzero]
    · simp [SetFileToCache, hnone, incReaders]
  · intro s kind path cand fid hsome
    refine ⟨?_, ?_, ?_, ?_⟩
    · simp [SetFileToCache, hsome]
    · intro k p
      simp [SetFileToCache, hsome, releaseFile, incReaders]
    · simp [SetFileToCache, hsome, releaseFile, incReaders]
    · simp [SetFileToCache, hsome, releaseFile, incReaders]
  · intro s kind path fid ops h
    exact applyOps_set_preserves_entry s kind path fid ops h

/-- Witness for C2: a fresh put into the empty cache stores the candidate
with one reader. -/
theorem C2_set_file_to_cache_witness :
    (SetFileToCache ⟨fun _ _ => none, fun _ => 0, fun _ => false⟩
        CacheKind.defaultKind ['/'] 5).1 = 5 ∧
    ((SetFileToCache ⟨fun _ _ => none, fun _ => 0, fun _ => false⟩
        CacheKind.defaultKind ['/'] 5).2).parts CacheKind.defaultKind ['/'] =
      some 5 ∧
    ((SetFileToCache ⟨fun _ _ => none, fun _ => 0, fun _ => false⟩
        CacheKind.defaultKind ['/'] 5).2).readers 5 = 1 ∧
    ((SetFileToCache ⟨fun _ _ => none, fun _ => 0, fun _ => false⟩
        CacheKind.defaultKind ['/'] 5).2).released 5 =
      (⟨fun _ _ => none, fun _ => 0, fun _ => false⟩ : CMState).released 5 :=
  C2_set_file_to_cache.1 ⟨fun _ _ => none, fun _ => 0, fun _ => false⟩
    CacheKind.defaultKind ['/'] 5 rfl rfl

theorem applyOp_readers_nonneg (s : CMState)
    (h : ∀ fid, 0 ≤ s.readers fid) (op : CacheOp) :
    ∀ fid, 0 ≤ (applyOp s op).readers fid := by
  intro fid
  cases op with
  | get kind path =>
      cases hp : s.parts kind path with
      | none => simpa [applyOp, GetFileFromCache, hp] using h fid
      | some ff =>
          simp only [applyOp, GetFileFromCache, hp, incReaders]
          by_cases he : fid = ff
          · rw [if_pos he]
            have := h fid
            omega
          · rw [if_neg he]
            exact h fid
  | set kind path cand =>
      cases hp : s.parts kind path with
      | none =>
          simp only [applyOp, SetFileToCache, hp, incReaders]
          by_cases he : fid = cand
          · rw [if_pos he]
            have := h fid
            omega
          · rw [if_neg he]
            exact h fid
      | some ff1 =>
          simp only [applyOp, SetFileToCache, hp, releaseFile, incReaders]
          by_cases he : fid = ff1
          · rw [if_pos he]
            have := h fid
            omega
          · rw [if_neg he]
            exact h fid
  | dec fid2 =>
      simp only [applyOp, decReadersCount]
      by_cases he : fid = fid2
      · rw [if_pos he]
        split_ifs <;> omega
      · rw [if_neg he]
        exact h fid

/-- Claim C4: under any sequence of locked cache operations (get with its
increment, put, reader-close decrement), every entry's reader count stays
non-negative. -/
theorem C4_readers_never_negative (s : CMState)
    (h : ∀ fid, 0 ≤ s.readers fid) (ops : List CacheOp) :
    ∀ fid, 0 ≤ (applyOps s ops).readers fid := by
  induction ops generalizing s with
  | nil => exact h
  | cons op rest ih => exact ih _ (applyOp_readers_nonneg s h op)

/-- Witness for C4 on a concrete operation sequence. -/
theorem C4_readers_never_negative_witness :
    0 ≤ (applyOps ⟨fun _ _ => none, fun _ => 0, fun _ => false⟩
      [CacheOp.set CacheKind.defaultKind ['/'] 3,
       CacheOp.get CacheKind.defaultKind ['/'],
       CacheOp.dec 3, CacheOp.dec 3, CacheOp.dec 3]).readers 3 :=
  C4_readers_never_negative ⟨fun _ _ => none, fun _ => 0, fun _ => false⟩
    (fun _ => le_refl 0) _ 3



/-! ### Facts about the background sweep -/

theorem sweepPendingPhase_release_le (l : List FFile)
    (acc : List FFile × List FFile)
    (hacc : ∀ ff ∈ acc.2, ff.readersCount ≤ 0) :
    ∀ ff ∈ (sweepPendingPhase l acc).2, ff.readersCount ≤ 0 := by
  induction l generalizing acc with
  | nil => exact hacc
  | cons ff0 rest ih =>
      match acc with
      | (remaining, toRelease) =>
        simp only [sweepPendingPhase]
        split_ifs with hr
        · exact ih _ hacc
        · refine ih _ ?_
          intro ff hff
          rcases List.mem_append.mp hff with hmem | hmem
          · exact hacc ff hmem
          · rw [List.mem_singleton.mp hmem]
            omega

theorem sweepPendingPhase_acc1_mono (l : List FFile)
    (acc : List FFile × List FFile) :
    ∀ ff ∈ acc.1, ff ∈ (sweepPendingPhase l acc).1 := by
  induction l generalizing acc with
  | nil => intro ff h; exact h
  | cons ff0 rest ih =>
      match acc with
      | (remaining, toRelease) =>
        intro ff h
        simp only [sweepPendingPhase]
        split_ifs with hr
        · exact ih (remaining ++ [ff0], toRelease) ff (by simpa using Or.inl h)
        · exact ih (remaining, toRelease ++ [ff0]) ff h

theorem sweepPendingPhase_acc2_mono (l : List FFile)
    (acc : List FFile × List FFile) :
    ∀ ff ∈ acc.2, ff ∈ (sweepPendingPhase l acc).2 := by
  induction l generalizing acc with
  | nil => intro ff h; exact h
  | cons ff0 rest ih =>
      match acc with
      | (remaining, toRelease) =>
        intro ff h
        simp only [sweepPendingPhase]
        split_ifs with hr
        · exact ih (remaining ++ [ff0], toRelease) ff h
        · exact ih (remaining, toRelease ++ [ff0]) ff (by simpa using Or.inl h)

theorem sweepPendingPhase_keep (l : List FFile)
    (acc : List FFile × List FFile) :
    ∀ ff ∈ l, ff.readersCount > 0 → ff ∈ (sweepPendingPhase l acc).1 := by
  induction l generalizing acc with
  | nil => intro ff h; exact absurd h (List.not_mem_nil ff)
  | cons ff0 rest ih =>
      match acc with
      | (remaining, toRelease) =>
        intro ff h hc
        simp only [sweepPendingPhase]
        rcases List.mem_cons.mp h with he | hm
        · subst he
          rw [if_pos hc]
          exact sweepPendingPhase_acc1_mono rest _ ff (by simp)
        · split_ifs with hr
          · exact ih _ ff hm hc
          · exact ih _ ff hm hc

theorem sweepPendingPhase_release_mem (l : List FFile)
    (acc : List FFile × List FFile) :
    ∀ ff ∈ l, ff.readersCount ≤ 0 → ff ∈ (sweepPendingPhase l acc).2 := by
  induction l generalizing acc with
  | nil => intro ff h; exact absurd h (List.not_mem_nil ff)
  | cons ff0 rest ih =>
      match acc with
      | (remaining, toRelease) =>
        intro ff h hc
        simp only [sweepPendingPhase]
        rcases List.mem_cons.mp h with he | hm
        · subst he
          rw [if_neg (by omega)]
          exact sweepPendingPhase_acc2_mono rest _ ff (by simp)
        · split_ifs with hr
          · exact ih _ ff hm hc
          · exact ih _ ff hm hc

theorem cleanCacheNolock_release_le (cache : List (String × FFile))
    (p r : List FFile) (now dur : Int)
    (hr : ∀ ff ∈ r, ff.readersCount ≤ 0) :
    ∀ ff ∈ (cleanCacheNolock cache p r now dur).2.2,
      ff.readersCount ≤ 0 := by
  induction cache generalizing p r with
  | nil => exact hr
  | cons e rest ih =>
      match e with
      | (k, ff0) =>
        simp only [cleanCacheNolock]
        split_ifs with h1 h2
        · exact ih _ _ hr
        · refine ih _ _ ?_
          intro ff hff
          rcases List.mem_append.mp hff with hm | hm
          · exact hr ff hm
          · rw [List.mem_singleton.mp hm]
            omega
        · exact ih p r hr

theorem cleanCacheNolock_pending_mono (cache : List (String × FFile))
    (p r : List FFile) (now dur : Int) :
    ∀ ff ∈ p, ff ∈ (cleanCacheNolock cache p r now dur).2.1 := by
  induction cache generalizing p r with
  | nil => intro ff h; exact h
  | cons e rest ih =>
      match e with
      | (k, ff0) =>
        intro ff h
        simp only [cleanCacheNolock]
        split_ifs with h1 h2
        · exact ih _ _ ff (by simpa using Or.inl h)
        · exact ih _ _ ff h
        · exact ih p r ff h

theorem cleanCacheNolock_release_mono (cache : List (String × FFile))
    (p r : List FFile) (now dur : Int) :
    ∀ ff ∈ r, ff ∈ (cleanCacheNolock cache p r now dur).2.2 := by
  induction cache generalizing p r with
  | nil => intro ff h; exact h
  | cons e rest ih =>
      match e with
      | (k, ff0) =>
        intro ff h
        simp only [cleanCacheNolock]
        split_ifs with h1 h2
        · exact ih _ _ ff h
        · exact ih _ _ ff (by simpa using Or.inl h)
        · exact ih p r ff h

theorem cleanCacheNolock_pending_mem (cache : List (String × FFile))
    (p r : List FFile) (now dur : Int) (k : String) (ff : FFile)
    (hmem : (k, ff) ∈ cache) (hstale : now - ff.t > dur)
    (hc : ff.readersCount > 0) :
    ff ∈ (cleanCacheNolock cache p r now dur).2.1 := by
  induction cache generalizing p r with
  | nil => exact absurd hmem (List.not_mem_nil _)
  | cons e rest ih =>
      match e with
      | (k', ff0) =>
        simp only [cleanCacheNolock]
        rcases List.mem_cons.mp hmem with he | hm
        · have hk : k' = k := (Prod.mk.injEq _ _ _ _ ▸ he.symm).1
          have hf : ff0 = ff := (Prod.mk.injEq _ _ _ _ ▸ he.symm).2
          rw [hf]
          rw [if_pos hstale, if_pos hc]
          exact cleanCacheNolock_pending_mono rest _ _ now dur ff (by simp)
        · split_ifs with h1 h2
          · exact ih _ _ hm
          · exact ih _ _ hm
          · exact ih p r hm

theorem cleanCacheNolock_fst_not_stale (cache : List (String × FFile))
    (p r : List FFile) (now dur : Int) (k : String) (ff : FFile)
    (hmem : (k, ff) ∈ (cleanCacheNolock cache p r now dur).1) :
    ¬ (now - ff.t > dur) := by
  induction cache generalizing p r with
  | nil => exact absurd hmem (List.not_mem_nil _)
  | cons e rest ih =>
      match e with
      | (k', ff0) =>
        by_cases h1 : now - ff0.t > dur
        · by_cases h2 : ff0.readersCount > 0
          · simp only [cleanCacheNolock, if_pos h1, if_pos h2] at hmem
            exact ih _ _ hmem
          · simp only [cleanCacheNolock, if_pos h1, if_neg h2] at hmem
            exact ih _ _ hmem
        · simp only [cleanCacheNolock, if_neg h1] at hmem
          rcases List.mem_cons.mp hmem with he | hm
          · have hf : ff = ff0 := (Prod.mk.injEq _ _ _ _ ▸ he).2
            rw [hf]
            exact h1
          · exact ih p r hm



/-- Claim C3: during one sweep, no entry with outstanding readers is
released (all released entries have reader count at most zero); every stale
entry (older than the cache duration) is removed from every partition
index, readers or not; stale entries with readers are deferred to the
pending list; and previously deferred entries are released exactly when
their count has reached zero, deferred again otherwise. -/
theorem C3_sweep_never_releases_held_entries (st : SweepCaches)
    (pending : List FFile) (now dur : Int) :
    (∀ ff ∈ (cleanCache st pending now dur).2.2, ff.readersCount ≤ 0) ∧
    (∀ (k : String) (ff : FFile), now - ff.t > dur →
        (k, ff) ∉ (cleanCache st pending now dur).1.cache ∧
        (k, ff) ∉ (cleanCache st pending now dur).1.cacheBrotli ∧
        (k, ff) ∉ (cleanCache st pending now dur).1.cacheGzip ∧
        (k, ff) ∉ (cleanCache st pending now dur).1.cacheZstd) ∧
    (∀ (k : String) (ff : FFile), ff.readersCount > 0 → now - ff.t > dur →
        ((k, ff) ∈ st.cache ∨ (k, ff) ∈ st.cacheBrotli ∨
         (k, ff) ∈ st.cacheGzip ∨ (k, ff) ∈ st.cacheZstd) →
        ff ∈ (cleanCache st pending now dur).2.1) ∧
    (∀ ff ∈ pending, ff.readersCount ≤ 0 →
        ff ∈ (cleanCache st pending now dur).2.2) ∧
    (∀ ff ∈ pending, ff.readersCount > 0 →
        ff ∈ (cleanCache st pending now dur).2.1) := by
  refine ⟨?_, ?_, ?_, ?_, ?_⟩
  · exact cleanCacheNolock_release_le _ _ _ _ _
      (cleanCacheNolock_release_le _ _ _ _ _
        (cleanCacheNolock_release_le _ _ _ _ _
          (cleanCacheNolock_release_le _ _ _ _ _
            (sweepPendingPhase_release_le pending ([], [])
              (by intro ff h; exact absurd h (List.not_mem_nil ff))))))
  · intro k ff hstale
    refine ⟨?_, ?_, ?_, ?_⟩ <;>
      · intro hmem
        exact cleanCacheNolock_fst_not_stale _ _ _ _ _ _ _ hmem hstale
  · intro k ff hc hstale hmem
    rcases hmem with hm | hm | hm | hm
    · exact cleanCacheNolock_pending_mono _ _ _ _ _ ff
        (cleanCacheNolock_pending_mono _ _ _ _ _ ff
          (cleanCacheNolock_pending_mono _ _ _ _ _ ff
            (cleanCacheNolock_pending_mem _ _ _ _ _ _ _ hm hstale hc)))
    · exact cleanCacheNolock_pending_mono _ _ _ _ _ ff
        (cleanCacheNolock_pending_mono _ _ _ _ _ ff
          (cleanCacheNolock_pending_mem _ _ _ _ _ _ _ hm hstale hc))
    · exact cleanCacheNolock_pending_mono _ _ _ _ _ ff
        (cleanCacheNolock_pending_mem _ _ _ _ _ _ _ hm hstale hc)
    · exact cleanCacheNolock_pending_mem _ _ _ _ _ _ _ hm hstale hc
  · intro ff hff hc
    exact cleanCacheNolock_release_mono _ _ _ _ _ ff
      (cleanCacheNolock_release_mono _ _ _ _ _ ff
        (cleanCacheNolock_release_mono _ _ _ _ _ ff
          (cleanCacheNolock_release_mono _ _ _ _ _ ff
            (sweepPendingPhase_release_mem pending ([], []) ff hff hc))))
  · intro ff hff hc
    exact cleanCacheNolock_pending_mono _ _ _ _ _ ff
      (cleanCacheNolock_pending_mono _ _ _ _ _ ff
        (cleanCacheNolock_pending_mono _ _ _ _ _ ff
          (cleanCacheNolock_pending_mono _ _ _ _ _ ff
            (sweepPendingPhase_keep pending ([], []) ff hff hc))))

/-- Witness for C3: a stale entry with two readers is deferred, not
released, and disappears from the index. -/
theorem C3_sweep_never_releases_held_entries_witness :
    (⟨1, 2, 0⟩ : FFile) ∈
      (cleanCache ⟨[("a", ⟨1, 2, 0⟩)], [], [], []⟩ [⟨2, 0, 0⟩] 10 5).2.1 ∧
    ("a", (⟨1, 2, 0⟩ : FFile)) ∉
      (cleanCache ⟨[("a", ⟨1, 2, 0⟩)], [], [], []⟩ [⟨2, 0, 0⟩] 10 5).1.cache ∧
    (⟨2, 0, 0⟩ : FFile) ∈
      (cleanCache ⟨[("a", ⟨1, 2, 0⟩)], [], [], []⟩ [⟨2, 0, 0⟩] 10 5).2.2 :=
  ⟨(C3_sweep_never_releases_held_entries
      ⟨[("a", ⟨1, 2, 0⟩)], [], [], []⟩ [⟨2, 0, 0⟩] 10 5).2.2.1 "a"
      ⟨1, 2, 0⟩ (by decide) (by decide) (Or.inl (by decide)),
   ((C3_sweep_never_releases_held_entries
      ⟨[("a", ⟨1, 2, 0⟩)], [], [], []⟩ [⟨2, 0, 0⟩] 10 5).2.1 "a"
      ⟨1, 2, 0⟩ (by decide)).1,
   (C3_sweep_never_releases_held_entries
      ⟨[("a", ⟨1, 2, 0⟩)], [], [], []⟩ [⟨2, 0, 0⟩] 10 5).2.2.2.1
      ⟨2, 0, 0⟩ (by decide) (by decide)⟩



/-! ### Facts about encoding selection -/

/-- Claim C5: a compressed encoding is negotiated only when the request has
no Range header and compression is enabled; brotli is preferred over zstd
over gzip; brotli and zstd additionally require their enable flags, gzip is
available whenever compression is; with no negotiated encoding the default
partition is used. -/
theorem C5_negotiate_encoding (cfg : EncodingConfig)
    (acc : AcceptedEncodings) (byteRange : List Char) :
    ((negotiateEncoding cfg acc byteRange).mustCompress →
        byteRange = [] ∧ cfg.compress = true) ∧
    (byteRange = [] → cfg.compress = true → cfg.compressBrotli = true →
        acc.br = true →
        negotiateEncoding cfg acc byteRange =
          ⟨true, CacheKind.brotliKind, "br"⟩) ∧
    (byteRange = [] → cfg.compress = true →
        ¬(cfg.compressBrotli = true ∧ acc.br = true) →
        cfg.compressZstd = true → acc.zstd = true →
        negotiateEncoding cfg acc byteRange =
          ⟨true, CacheKind.zstdKind, "zstd"⟩) ∧
    (byteRange = [] → cfg.compress = true →
        ¬(cfg.compressBrotli = true ∧ acc.br = true) →
        ¬(cfg.compressZstd = true ∧ acc.zstd = true) → acc.gzip = true →
        negotiateEncoding cfg acc byteRange =
          ⟨true, CacheKind.gzipKind, "gzip"⟩) ∧
    ((negotiateEncoding cfg acc byteRange).mustCompress = false →
        (negotiateEncoding cfg acc byteRange).fileCacheKind =
          CacheKind.defaultKind) ∧
    ((negotiateEncoding cfg acc byteRange).fileEncoding = "br" →
        cfg.compressBrotli = true ∧ acc.br = true) ∧
    ((negotiateEncoding cfg acc byteRange).fileEncoding = "zstd" →
        cfg.compressZstd = true ∧ acc.zstd = true) ∧
    ((negotiateEncoding cfg acc byteRange).fileEncoding = "gzip" →
        cfg.compress = true ∧ acc.gzip = true) := by
  unfold negotiateEncoding
  by_cases h0 : byteRange.length = 0 ∧ cfg.compress
  · rw [if_pos h0]
    have hbr : byteRange = [] := List.eq_nil_of_length_eq_zero h0.1
    split_ifs with h1 h2 h3 <;> simp_all
  · rw [if_neg h0]
    constructor
    · intro hmc
      exact absurd hmc (by simp)
    refine ⟨?_, ?_, ?_, by intro _; rfl, by intro h; simp at h,
      by intro h; simp at h, by intro h; simp at h⟩
    · intro hbr hc _ _
      exact absurd ⟨by simp [hbr], hc⟩ h0
    · intro hbr hc _ _ _
      exact absurd ⟨by simp [hbr], hc⟩ h0
    · intro hbr hc _ _ _
      exact absurd ⟨by simp [hbr], hc⟩ h0

/-- Witness for C5: brotli is chosen when enabled and accepted without a
Range header. -/
theorem C5_negotiate_encoding_witness :
    negotiateEncoding ⟨true, true, true⟩ ⟨true, true, true⟩ [] =
      ⟨true, CacheKind.brotliKind, "br"⟩ :=
  (C5_negotiate_encoding ⟨true, true, true⟩ ⟨true, true, true⟩ []).2.1
    rfl rfl rfl rfl


/-! ### Facts about the staleness check in openFSFile -/

/-- Claim C7: for an existing on-disk compressed artifact opened under a
negotiated encoding, `openFSFile` compares the original's and the
artifact's modification times: an original newer by at least one second
makes it close and delete the artifact and recompress; any smaller
difference (the original being older included) serves the artifact
unchanged. -/
theorem C7_staleness_check (filePathEmpty : Bool) (o : OpenOracle)
    (m mo sz : Int) (hopen : o.openFile = .ok ())
    (hstat : o.statFile = .ok (false, m, sz))
    (horig : o.statOriginal = .ok mo) :
    (mo - m ≥ nsPerSecond →
        openFSFile true filePathEmpty o =
          ⟨.compressAndOpen, true, true⟩) ∧
    (mo - m < nsPerSecond →
        openFSFile true filePathEmpty o =
          ⟨.servedFile true, false, false⟩) := by
  constructor
  · intro hge
    simp [openFSFile, hopen, hstat, horig, hge]
  · intro hlt
    simp [openFSFile, hopen, hstat, horig, not_le.mpr hlt]

/-- Witness for C7: a source exactly one second newer forces deletion and
recompression. -/
theorem C7_staleness_check_witness :
    openFSFile true false ⟨.ok (), .ok (false, 0, 10), .ok nsPerSecond⟩ =
      ⟨.compressAndOpen, true, true⟩ :=
  (C7_staleness_check false ⟨.ok (), .ok (false, 0, 10), .ok nsPerSecond⟩
    0 nsPerSecond 10 rfl rfl rfl).1 (by norm_num [nsPerSecond])

/-! ### Facts about leading-slash stripping -/

theorem indexByte_drop_head (l : List Char) (t : Char) (n : Nat)
    (h : indexByte l t = some n) : (l.drop n).head? = some t := by
  induction l generalizing n with
  | nil => exact absurd h (by simp [indexByte])
  | cons c rest ih =>
      by_cases he : c = t
      · have h0 : n = 0 := by
          simp only [indexByte, if_pos he] at h
          simpa using h.symm
        subst h0
        simp [he]
      · simp only [indexByte, if_neg he] at h
        cases hm : indexByte rest t with
        | none =>
            rw [hm] at h
            simp at h
        | some m =>
            rw [hm] at h
            simp only [Option.map_some'] at h
            rw [Option.some.injEq] at h
            subst h
            simpa using ih m hm

/-- Claim C10: with a positive strip count, a non-empty path not starting
with a slash makes `stripLeadingSlashes` — and so the
`NewPathSlashesStripper` rewriter — panic; a path starting with a slash is
processed normally, dropping up to `stripSlashes` leading slash-delimited
segments and yielding the empty path when no further slash exists. -/
theorem C10_strip_leading_slashes :
    (∀ (path : List Char) (k : Nat) (c : Char), 0 < k → c ≠ '/' →
        stripLeadingSlashes (c :: path) k = none ∧
        NewPathSlashesStripper k (c :: path) = none) ∧
    (∀ (path : List Char) (k : Nat), path.head? = some '/' →
        stripLeadingSlashes path k = some (dropSegments path k) ∧
        NewPathSlashesStripper k path = some (dropSegments path k)) ∧
    (∀ (rest : List Char) (k : Nat), 0 < k → indexByte rest '/' = none →
        stripLeadingSlashes ('/' :: rest) k = some []) := by
  have hmain : ∀ (k : Nat) (path : List Char), path.head? = some '/' →
      stripLeadingSlashes path k = some (dropSegments path k) := by
    intro k
    induction k with
    | zero => intro path _; cases path <;> rfl
    | succ k ih =>
        intro path hh
        cases path with
        | nil => exact absurd hh (by simp)
        | cons c rest =>
            have hc : c = '/' := by simpa using hh
            subst hc
            simp only [stripLeadingSlashes, dropSegments]
            rw [if_neg (by simp)]
            cases hm : indexByte rest '/' with
            | none => rfl
            | some n => exact ih (rest.drop n) (indexByte_drop_head rest '/' n hm)
  refine ⟨?_, ?_, ?_⟩
  · intro path k c hk hc
    cases k with
    | zero => exact absurd hk (by omega)
    | succ k =>
        constructor
        · simp [stripLeadingSlashes, hc]
        · simp [NewPathSlashesStripper, stripLeadingSlashes, hc]
  · intro path k hh
    exact ⟨hmain k path hh, hmain k path hh⟩
  · intro rest k hk hm
    cases k with
    | zero => exact absurd hk (by omega)
    | succ k =>
        simp [stripLeadingSlashes, hm]

/-- Witness for C10: stripping one segment from a path that does not start
with a slash panics. -/
theorem C10_strip_leading_slashes_witness :
    stripLeadingSlashes ['a', '/', 'b'] 1 = none ∧
    NewPathSlashesStripper 1 ['a', '/', 'b'] = none :=
  C10_strip_leading_slashes.1 ['/', 'b'] 1 'a' (by decide) (by decide)


/-! ### Facts about the request state machine -/

/-- Claim C6: a path containing a NUL byte is rejected with 400 before any
cache or filesystem interaction (the event trace is empty); when and only
when the path came from a rewriter, a path containing "/../" is rejected
with 500, again with an empty trace; without a rewriter the "/../" check
can never fire. -/
theorem C6_nul_and_dotdot_rejection (cfg : HandlerConfig) (req : Request)
    (o : Oracle) (isHead : Bool) :
    ((req.rewritten.getD req.ctxPath).contains nulByte = true →
        handleRequest cfg req o isHead = errorOutcome 400 []) ∧
    ((req.rewritten.getD req.ctxPath).contains nulByte = false →
        req.rewritten.isSome = true →
        hasSubSlice (req.rewritten.getD req.ctxPath) strSlashDotDotSlash =
          true →
        handleRequest cfg req o isHead = errorOutcome 500 []) ∧
    (∀ path : List Char, pathChecks path false ≠ some 500) := by
  refine ⟨?_, ?_, ?_⟩
  · intro h
    have hm : nulByte ∈ req.rewritten.getD req.ctxPath := by simpa using h
    have hp : pathChecks (req.rewritten.getD req.ctxPath)
        req.rewritten.isSome = some 400 := by
      simp [pathChecks, hm]
    simp only [handleRequest, hp]
  · intro h hrw hdd
    have hm : nulByte ∉ req.rewritten.getD req.ctxPath := by simpa using h
    have hp : pathChecks (req.rewritten.getD req.ctxPath)
        req.rewritten.isSome = some 500 := by
      simp [pathChecks, hm, hrw, hdd]
    simp only [handleRequest, hp]
  · intro path
    simp only [pathChecks]
    split_ifs with h1 h2 <;> simp_all

/-- Witness for C6: a path with an embedded NUL byte is rejected with 400
and no side effects. -/
theorem C6_nul_and_dotdot_rejection_witness :
    handleRequest ⟨⟨false, false, false⟩, false⟩
      ⟨['/', nulByte], none, [], ⟨false, false, false⟩, none⟩
      ⟨none, fun _ => .error .otherError, .error (), none, true, true, true⟩
      false =
      errorOutcome 400 [] :=
  (C6_nul_and_dotdot_rejection ⟨⟨false, false, false⟩, false⟩
      ⟨['/', nulByte], none, [], ⟨false, false, false⟩, none⟩
      ⟨none, fun _ => .error .otherError, .error (), none, true, true, true⟩
      false).1 (by decide)

/-- Claim C8: a cache hit whose If-Modified-Since header is at or after the
entry's last-modified time yields a 304 with no body: the entry's reader
count is decremented right after the lookup's increment, no reader or body
stream is constructed, and no cache mutation beyond those two counter moves
happens (the trace is exactly get, inc, dec). -/
theorem C8_not_modified_304 (cfg : HandlerConfig) (req : Request)
    (o : Oracle) (isHead : Bool) (ff : FsFileInfo) (t : Int)
    (hpath : pathChecks (req.rewritten.getD req.ctxPath)
      req.rewritten.isSome = none)
    (hcache : o.cached = some ff)
    (hhdr : req.ifModifiedSinceHdr = some t)
    (hge : ff.lastModified ≤ t) :
    handleRequest cfg req o isHead =
      errorOutcome 304
        [Ev.cacheGet
            (negotiateEncoding cfg.enc req.accept req.byteRange).fileCacheKind
            true,
         Ev.incReaders ff.fid, Ev.decReaders ff.fid] := by
  have hcond : ifModifiedSince req.ifModifiedSinceHdr ff.lastModified =
      false := by
    simp [ifModifiedSince, hhdr]
    omega
  simp only [handleRequest, hpath, cacheLookupStage, hcache, serveEntry,
    hcond]
  simp


/-- Witness for C8 at a concrete cache hit with If-Modified-Since after the
last-modified time. -/
theorem C8_not_modified_304_witness :
    handleRequest ⟨⟨false, false, false⟩, false⟩
      ⟨['/'], none, [], ⟨false, false, false⟩, some 5⟩
      ⟨some ⟨1, 10, 3, false, ""⟩, fun _ => .error .otherError, .error (),
        none, true, true, true⟩ false =
      errorOutcome 304
        [Ev.cacheGet
            (negotiateEncoding ⟨false, false, false⟩ ⟨false, false, false⟩
              []).fileCacheKind true,
         Ev.incReaders 1, Ev.decReaders 1] :=
  C8_not_modified_304 ⟨⟨false, false, false⟩, false⟩
    ⟨['/'], none, [], ⟨false, false, false⟩, some 5⟩
    ⟨some ⟨1, 10, 3, false, ""⟩, fun _ => .error .otherError, .error (),
      none, true, true, true⟩ false ⟨1, 10, 3, false, ""⟩ 5
    (by decide) rfl rfl (by decide)

theorem emitStage_head_props (e : EmitInput) :
    (emitStage true e).bodyStream = none ∧
    (emitStage false e).bodyStream = some (e.readerFid, e.contentLength) ∧
    (emitStage true e).contentLengthHdr = some e.contentLength ∧
    (emitStage true e).bodyReset = true ∧
    (emitStage true e).skipBody = true ∧
    Ev.closeReader e.readerFid ∈ (emitStage true e).events ∧
    Ev.decReaders e.readerFid ∈ (emitStage true e).events ∧
    (emitStage true e).contentRange = (emitStage false e).contentRange ∧
    (emitStage true e).contentEncoding =
      (emitStage false e).contentEncoding ∧
    (emitStage true e).lastModifiedHdr =
      (emitStage false e).lastModifiedHdr := by
  unfold emitStage
  by_cases h : e.closeOk <;> simp [h]

theorem emitStage_pair_props (e : EmitInput) (fid : Nat) (n : Int)
    (hbs : (emitStage false e).bodyStream = some (fid, n)) :
    (emitStage true e).contentLengthHdr = some n ∧
    (emitStage true e).bodyReset = true ∧
    (emitStage true e).skipBody = true ∧
    Ev.closeReader fid ∈ (emitStage true e).events ∧
    Ev.decReaders fid ∈ (emitStage true e).events ∧
    (emitStage true e).contentRange = (emitStage false e).contentRange ∧
    (emitStage true e).contentEncoding =
      (emitStage false e).contentEncoding ∧
    (emitStage true e).lastModifiedHdr =
      (emitStage false e).lastModifiedHdr := by
  have h := emitStage_head_props e
  rw [h.2.1] at hbs
  simp only [Option.some.injEq, Prod.mk.injEq] at hbs
  obtain ⟨hfid, hn⟩ := hbs
  subst hfid
  subst hn
  exact ⟨h.2.2.1, h.2.2.2.1, h.2.2.2.2.1, h.2.2.2.2.2.1,
    h.2.2.2.2.2.2.1, h.2.2.2.2.2.2.2.1, h.2.2.2.2.2.2.2.2.1,
    h.2.2.2.2.2.2.2.2.2⟩

theorem serveEntry_shape (cfg : HandlerConfig) (req : Request)
    (o : Oracle) (choice : EncodingChoice) (ff : FsFileInfo)
    (evs : List Ev) :
    (∃ out : Outcome, out.bodyStream = none ∧
      serveEntry cfg req o true choice ff evs = out ∧
      serveEntry cfg req o false choice ff evs = out) ∨
    (∃ E : EmitInput,
      serveEntry cfg req o true choice ff evs = emitStage true E ∧
      serveEntry cfg req o false choice ff evs = emitStage false E) := by
  by_cases h1 : ¬ ifModifiedSince req.ifModifiedSinceHdr ff.lastModified
  · simp only [serveEntry, if_pos h1]
    exact Or.inl ⟨_, rfl, rfl, rfl⟩
  · by_cases h2 : ¬ o.readerOk
    · simp only [serveEntry, if_neg h1, if_pos h2]
      exact Or.inl ⟨_, rfl, rfl, rfl⟩
    · by_cases h3 : cfg.acceptByteRange
      · by_cases h4 : req.byteRange ≠ []
        · cases hp : ParseByteRange req.byteRange ff.contentLength with
          | none =>
              simp only [serveEntry, if_neg h1, if_neg h2, if_pos h3,
                if_pos h4, hp]
              exact Or.inl ⟨_, rfl, rfl, rfl⟩
          | some se =>
              obtain ⟨startPos, endPos⟩ := se
              by_cases h5 : ¬ o.seekOk
              · simp only [serveEntry, if_neg h1, if_neg h2, if_pos h3,
                  if_pos h4, hp, if_pos h5]
                exact Or.inl ⟨_, rfl, rfl, rfl⟩
              · simp only [serveEntry, if_neg h1, if_neg h2, if_pos h3,
                  if_pos h4, hp, if_neg h5]
                exact Or.inr ⟨_, rfl, rfl⟩
        · simp only [serveEntry, if_neg h1, if_neg h2, if_pos h3, if_neg h4]
          exact Or.inr ⟨_, rfl, rfl⟩
      · simp only [serveEntry, if_neg h1, if_neg h2, if_neg h3]
        exact Or.inr ⟨_, rfl, rfl⟩

theorem openStage_error_bodyStream (choice : EncodingChoice) (o : Oracle)
    (hts : Bool) (res : Except OpenError FsFileInfo) (evs : List Ev)
    (out : Outcome) (h : openStage choice o hts res evs = .error out) :
    out.bodyStream = none := by
  cases res with
  | ok ff => exact absurd h (by simp [openStage])
  | error e =>
      cases e with
      | dirIndexRequired =>
          by_cases hts1 : ¬ (hts = true)
          · rw [openStage, if_pos hts1] at h
            injection h with h2
            rw [← h2]
            rfl
          · rw [openStage, if_neg hts1] at h
            cases hidx : o.openIndex with
            | error u =>
                rw [hidx] at h
                injection h with h2
                rw [← h2]
                rfl
            | ok ff =>
                rw [hidx] at h
                exact absurd h (by simp)
      | noCreatePermission =>
          rw [show openStage choice o hts (.error .noCreatePermission) evs =
            .error (errorOutcome 404 evs) from rfl] at h
          injection h with h2
          rw [← h2]
          rfl
      | otherError =>
          rw [show openStage choice o hts (.error .otherError) evs =
            .error (errorOutcome 404 evs) from rfl] at h
          injection h with h2
          rw [← h2]
          rfl

theorem cacheLookupStage_error_bodyStream (choice : EncodingChoice)
    (o : Oracle) (hts : Bool) (out : Outcome)
    (h : cacheLookupStage choice o hts = .error out) :
    out.bodyStream = none := by
  cases hc : o.cached with
  | some ff =>
      simp only [cacheLookupStage, hc] at h
      exact absurd h (by simp)
  | none =>
      simp only [cacheLookupStage, hc] at h
      cases ho : o.openFS choice.mustCompress with
      | error e =>
          cases e with
          | noCreatePermission =>
              simp only [ho] at h
              by_cases hmc : choice.mustCompress = true
              · rw [if_pos hmc] at h
                exact openStage_error_bodyStream _ _ _ _ _ _ h
              · rw [if_neg hmc] at h
                exact openStage_error_bodyStream _ _ _ _ _ _ h
          | dirIndexRequired =>
              simp only [ho] at h
              exact openStage_error_bodyStream _ _ _ _ _ _ h
          | otherError =>
              simp only [ho] at h
              exact openStage_error_bodyStream _ _ _ _ _ _ h
      | ok ff =>
          simp only [ho] at h
          exact openStage_error_bodyStream _ _ _ _ _ _ h

theorem handleRequest_shape (cfg : HandlerConfig) (req : Request)
    (o : Oracle) :
    (∃ out : Outcome, out.bodyStream = none ∧
      handleRequest cfg req o true = out ∧
      handleRequest cfg req o false = out) ∨
    (∃ E : EmitInput,
      handleRequest cfg req o true = emitStage true E ∧
      handleRequest cfg req o false = emitStage false E) := by
  simp only [handleRequest]
  cases hp : pathChecks (req.rewritten.getD req.ctxPath)
      req.rewritten.isSome with
  | some st => exact Or.inl ⟨_, rfl, rfl, rfl⟩
  | none =>
      cases hcl : cacheLookupStage
          (negotiateEncoding cfg.enc req.accept req.byteRange) o
          (decide ((req.rewritten.getD req.ctxPath).getLast? =
            some '/')) with
      | error out =>
          exact Or.inl ⟨out,
            cacheLookupStage_error_bodyStream _ _ _ _ hcl, rfl, rfl⟩
      | ok pr =>
          obtain ⟨ff, evs⟩ := pr
          exact serveEntry_shape cfg req o _ ff evs

/-- Claim C9: a HEAD request never carries a body; whenever the matching
GET hands the sink a reader with some length, the HEAD run sets
`Content-Length` to exactly that length, resets and skips the body, closes
the reader (with its reader-count decrement) instead of streaming, and
leaves the remaining headers as the GET would. -/
theorem C9_head_sets_length_and_no_body (cfg : HandlerConfig)
    (req : Request) (o : Oracle) :
    (handleRequest cfg req o true).bodyStream = none ∧
    (∀ fid n,
      (handleRequest cfg req o false).bodyStream = some (fid, n) →
      (handleRequest cfg req o true).contentLengthHdr = some n ∧
      (handleRequest cfg req o true).bodyReset = true ∧
      (handleRequest cfg req o true).skipBody = true ∧
      Ev.closeReader fid ∈ (handleRequest cfg req o true).events ∧
      Ev.decReaders fid ∈ (handleRequest cfg req o true).events ∧
      (handleRequest cfg req o true).contentRange =
        (handleRequest cfg req o false).contentRange ∧
      (handleRequest cfg req o true).contentEncoding =
        (handleRequest cfg req o false).contentEncoding ∧
      (handleRequest cfg req o true).lastModifiedHdr =
        (handleRequest cfg req o false).lastModifiedHdr) := by
  rcases handleRequest_shape cfg req o with
    ⟨out, hnone, ht, hf⟩ | ⟨E, ht, hf⟩
  · rw [ht, hf]
    exact ⟨hnone, fun fid n hbs => absurd (hnone ▸ hbs) (by simp)⟩
  · rw [ht, hf]
    exact ⟨(emitStage_head_props E).1,
      fun fid n hbs => emitStage_pair_props E fid n hbs⟩

/-- Witness for C9: a plain cache hit for a ten-byte file; the GET streams
ten bytes and the HEAD advertises the same ten bytes with no body. -/
theorem C9_head_sets_length_and_no_body_witness :
    (handleRequest ⟨⟨false, false, false⟩, false⟩
      ⟨['/'], none, [], ⟨false, false, false⟩, none⟩
      ⟨some ⟨1, 10, 3, false, ""⟩, fun _ => .error .otherError, .error (),
        none, true, true, true⟩ true).bodyStream = none ∧
    (handleRequest ⟨⟨false, false, false⟩, false⟩
      ⟨['/'], none, [], ⟨false, false, false⟩, none⟩
      ⟨some ⟨1, 10, 3, false, ""⟩, fun _ => .error .otherError, .error (),
        none, true, true, true⟩ true).contentLengthHdr = some 10 := by
  have h := C9_head_sets_length_and_no_body ⟨⟨false, false, false⟩, false⟩
    ⟨['/'], none, [], ⟨false, false, false⟩, none⟩
    ⟨some ⟨1, 10, 3, false, ""⟩, fun _ => .error .otherError, .error (),
      none, true, true, true⟩
  exact ⟨h.1, (h.2 1 10 (by rfl)).1⟩

end FsSpec
